import Mathlib

/-!
# Verification of the SMR-BRIDGE DSMR telegram parser

Shallow embedding of the streaming DSMR (P1) telegram parser of
`SMR-Multi.ino`, firmware revision 6.2.0 (the revision with CRC16
validation).  Bytes are modelled as `Nat` (values 0..255), C strings as
`List Nat` without the terminating NUL, machine integers as `Int`/`Nat`
with explicit two's-complement wrapping where the C code uses fixed-width
arithmetic.
-/

set_option maxRecDepth 2000
set_option maxHeartbeats 4000000

namespace SMR

/-- Two's-complement wrap of an integer into the signed 64-bit range,
modelling C `int64_t` arithmetic results. -/
def wrap64 (x : Int) : Int := (x + 2 ^ 63) % 2 ^ 64 - 2 ^ 63

/-- Two's-complement cast of an integer to `int32_t`. -/
def toInt32 (x : Int) : Int := (x + 2 ^ 31) % 2 ^ 32 - 2 ^ 31

/-- Two's-complement cast of an integer to `int16_t`. -/
def toInt16 (x : Int) : Int := (x + 2 ^ 15) % 2 ^ 16 - 2 ^ 15

/-- Cast of an integer to `uint64_t` (reduction modulo 2^64). -/
def toUInt64c (x : Int) : Nat := (x % 2 ^ 64).toNat

/-- One shift-and-conditional-xor round of the reflected CRC16 loop body. -/
def crc16_bit (c : Nat) : Nat :=
  if c % 2 = 1 then (c / 2) ^^^ 0xA001 else c / 2

/-- CRC16/IBM update with one byte: `crc ^= byte` followed by eight
reflected polynomial (0xA001) rounds.  Mirrors `crc16_update`. -/
def crc16_update (crc byte : Nat) : Nat :=
  crc16_bit^[8] (crc ^^^ byte)

/-- CRC16 of a byte list starting from accumulator `init` (0 for a fresh
telegram). -/
def crc16_list (init : Nat) (bs : List Nat) : Nat :=
  bs.foldl crc16_update init

/-- Byte predicate for ASCII decimal digits. -/
def isDigitByte (c : Nat) : Bool := 48 ≤ c ∧ c ≤ 57

/-- State of the `ascii_to_fixed` scan loop:
(result, fraction, decimal_seen, frac_digits). -/
abbrev A2FState := Int × Int × Bool × Nat

/-- The `while (*str)` scan loop of `ascii_to_fixed`: stops at a NUL byte,
records a decimal point, accumulates integer digits into `result` and up
to six fractional digits into `fraction`, and skips every other byte. -/
def a2f_loop : List Nat → A2FState → A2FState
  | [], st => st
  | c :: rest, (result, fraction, decimal_seen, frac_digits) =>
    if c = 0 then (result, fraction, decimal_seen, frac_digits)
    else if c = 46 then a2f_loop rest (result, fraction, true, frac_digits)
    else if isDigitByte c then
      if !decimal_seen then
        a2f_loop rest (wrap64 (result * 10 + ((c : Int) - 48)), fraction,
          decimal_seen, frac_digits)
      else if frac_digits < 6 then
        a2f_loop rest (result, wrap64 (fraction * 10 + ((c : Int) - 48)),
          decimal_seen, frac_digits + 1)
      else a2f_loop rest (result, fraction, decimal_seen, frac_digits)
    else a2f_loop rest (result, fraction, decimal_seen, frac_digits)

/-- The `while (frac_digits < 6) fraction *= 10` padding loop, expressed
as `k` wrapped multiplications by ten. -/
def padTimes10 (f : Int) : Nat → Int
  | 0 => f
  | k + 1 => padTimes10 (wrap64 (f * 10)) k

/-- `ascii_to_fixed` of revision 6.2.0: optional leading minus sign,
digit scan with at most six fractional digits, zero padding of the
fraction to six digits, combination as `result * 1000000 + fraction`,
optional coarse rescale (scale 2 divides by 10000, scale 3 by 1000), and
sign application, all in `int64_t` arithmetic. -/
def ascii_to_fixed (s : List Nat) (scale : Nat) : Int :=
  let sign : Int := if s.headD 0 = 45 then -1 else 1
  let s := if s.headD 0 = 45 then s.tail else s
  let st := a2f_loop s (0, 0, false, 0)
  let fraction := padTimes10 st.2.1 (6 - st.2.2.2)
  let result := wrap64 (st.1 * 1000000 + fraction)
  let result :=
    if scale = 2 then Int.tdiv result 10000
    else if scale = 3 then Int.tdiv result 1000
    else result
  wrap64 (result * sign)

/-- Byte predicate for ASCII hexadecimal digits. -/
def isHexByte (c : Nat) : Bool :=
  (48 ≤ c ∧ c ≤ 57) ∨ (65 ≤ c ∧ c ≤ 70) ∨ (97 ≤ c ∧ c ≤ 102)

/-- Numeric value of an ASCII hexadecimal digit byte. -/
def hexVal (c : Nat) : Nat :=
  if c ≤ 57 then c - 48 else if c ≤ 70 then c - 55 else c - 87

/-- Byte predicate for the C locale `isspace` set. -/
def isSpaceByte (c : Nat) : Bool :=
  c = 32 ∨ c = 9 ∨ c = 10 ∨ c = 11 ∨ c = 12 ∨ c = 13

/-- C library `strtol(s, NULL, 16)` on a NUL-free byte list: skip
whitespace, optional sign, optional `0x` prefix when followed by a hex
digit, then accumulate hexadecimal digits.  The parser only ever passes
four-byte inputs, so `long` overflow cannot occur. -/
def strtol16 (s : List Nat) : Int :=
  let s := s.dropWhile isSpaceByte
  let sign : Int := if s.headD 0 = 45 then -1 else 1
  let s := if s.headD 0 = 45 ∨ s.headD 0 = 43 then s.tail else s
  let s :=
    match s with
    | 48 :: x :: c :: rest =>
      if (x = 120 ∨ x = 88) ∧ isHexByte c then c :: rest else s
    | _ => s
  let digits := s.takeWhile isHexByte
  sign * (digits.foldl (fun acc c => acc * 16 + (hexVal c : Int)) 0)

/-- ASCII byte list of a Lean string literal. -/
def bytesOf (s : String) : List Nat := s.toList.map Char.toNat

/-- Decoded output record of one telegram, mirroring `dsmr_data_t` of
revision 6.2.0.  Text fields hold the bytes before the terminating NUL
of the corresponding `char` array (capacities 33, 14, 33, so at most
32, 13 and 32 stored characters). -/
structure dsmr_data_t where
  energy_delivered_low : Nat := 0
  energy_delivered_high : Nat := 0
  energy_produced_low : Nat := 0
  energy_produced_high : Nat := 0
  current_power : Int := 0
  current_return : Int := 0
  power_l1 : Int := 0
  power_l2 : Int := 0
  power_l3 : Int := 0
  return_l1 : Int := 0
  return_l2 : Int := 0
  return_l3 : Int := 0
  voltage_l1 : Int := 0
  voltage_l2 : Int := 0
  voltage_l3 : Int := 0
  current_l1 : Int := 0
  current_l2 : Int := 0
  current_l3 : Int := 0
  pf_total : Int := 0
  pf_l1 : Int := 0
  pf_l2 : Int := 0
  pf_l3 : Int := 0
  power_limit : Int := 0
  meter_id : List Nat := []
  timestamp : List Nat := []
  equipment_id : List Nat := []
  is_3phase : Bool := false
  frame_complete : Bool := false
  has_pf_data : Bool := false
deriving DecidableEq

/-- The all-zero record produced by `memset` in `dsmr_parser_init`. -/
def init_data : dsmr_data_t := {}

/-- Parser state, mirroring `dsmr_parser_t`: the line buffer is the list
of bytes written since the last line reset (its length is `line_index`),
plus the frame-active flag, the running CRC16 and the CRC-closed flag.
The working record pointed to by `data` is carried inline. -/
structure dsmr_parser_t where
  line_buffer : List Nat := []
  frame_active : Bool := false
  crc_calculated : Nat := 0
  crc_done : Bool := false
  data : dsmr_data_t := {}
deriving DecidableEq

/-- `dsmr_parser_init`: zero the parser state and the output record. -/
def dsmr_parser_init : dsmr_parser_t := {}

/-- The OBIS lookup table of revision 6.2.0 (string, numeric tag), tag
values following the `obis_id_t` enumeration (NONE = 0). -/
def OBIS_TABLE : List (List Nat × Nat) :=
  [ (bytesOf "0-0:96.1.1", 1), (bytesOf "0-0:1.0.0", 2),
    (bytesOf "0-0:17.0.0", 3), (bytesOf "1-0:1.8.1", 4),
    (bytesOf "1-0:1.8.2", 5), (bytesOf "1-0:2.8.1", 6),
    (bytesOf "1-0:2.8.2", 7), (bytesOf "1-0:1.7.0", 8),
    (bytesOf "1-0:2.7.0", 9), (bytesOf "1-0:21.7.0", 10),
    (bytesOf "1-0:41.7.0", 11), (bytesOf "1-0:61.7.0", 12),
    (bytesOf "1-0:22.7.0", 13), (bytesOf "1-0:42.7.0", 14),
    (bytesOf "1-0:62.7.0", 15), (bytesOf "1-0:32.7.0", 16),
    (bytesOf "1-0:52.7.0", 17), (bytesOf "1-0:72.7.0", 18),
    (bytesOf "1-0:31.7.0", 19), (bytesOf "1-0:51.7.0", 20),
    (bytesOf "1-0:71.7.0", 21), (bytesOf "1-0:13.7.0", 22),
    (bytesOf "1-0:33.7.0", 23), (bytesOf "1-0:53.7.0", 24),
    (bytesOf "1-0:73.7.0", 25) ]

/-- `match_obis_code`: exact-match lookup over the table, first hit wins,
`OBIS_ID_NONE` (0) when no entry matches. -/
def match_obis_code (obis : List Nat) : Nat :=
  match OBIS_TABLE.find? (fun e => e.1 == obis) with
  | some e => e.2
  | none => 0

/-- `extract_value`: locate the first `(`, then cut the value at the
first `*` or `)` (whichever comes first); `none` when the line has no
`(` or neither delimiter follows it.  The copy into the 80-byte scratch
buffer truncates the value to 79 bytes. -/
def extract_value (line : List Nat) : Option (List Nat) :=
  match List.findIdx? (fun b => b == 40) line with
  | none => none
  | some i =>
    let start := line.drop (i + 1)
    let endIdx := List.findIdx? (fun b => b == 41) start
    let unitIdx := List.findIdx? (fun b => b == 42) start
    let len? : Option Nat :=
      match unitIdx, endIdx with
      | some u, none => some u
      | some u, some e => if u < e then some u else some e
      | none, some e => some e
      | none, none => none
    match len? with
    | none => none
    | some len => some (start.take (min len 79))

/-- `store_value`: route a value string to its record field.  Meter id
and timestamp are `strncpy`-truncated text; voltage converts at scale 2,
ampere current at scale 3, power factors at scale 6 then divided by 100
(setting `has_pf_data`), everything else at scale 6.  The stores apply
the C casts of the destination field widths. -/
def store_value (d : dsmr_data_t) (obis : Nat) (v : List Nat) : dsmr_data_t :=
  if obis = 1 then { d with meter_id := v.take 32 }
  else if obis = 2 then { d with timestamp := v.take 13 }
  else
    let value : Int :=
      if 16 ≤ obis ∧ obis ≤ 18 then ascii_to_fixed v 2
      else if 19 ≤ obis ∧ obis ≤ 21 then ascii_to_fixed v 3
      else if 22 ≤ obis ∧ obis ≤ 25 then Int.tdiv (ascii_to_fixed v 6) 100
      else ascii_to_fixed v 6
    let d := if 22 ≤ obis ∧ obis ≤ 25 then { d with has_pf_data := true } else d
    match obis with
    | 3 => { d with power_limit := toInt32 value }
    | 4 => { d with energy_delivered_low := toUInt64c value }
    | 5 => { d with energy_delivered_high := toUInt64c value }
    | 6 => { d with energy_produced_low := toUInt64c value }
    | 7 => { d with energy_produced_high := toUInt64c value }
    | 8 => { d with current_power := toInt32 value }
    | 9 => { d with current_return := toInt32 value }
    | 10 => { d with power_l1 := toInt32 value }
    | 11 => { d with power_l2 := toInt32 value, is_3phase := true }
    | 12 => { d with power_l3 := toInt32 value, is_3phase := true }
    | 13 => { d with return_l1 := toInt32 value }
    | 14 => { d with return_l2 := toInt32 value }
    | 15 => { d with return_l3 := toInt32 value }
    | 16 => { d with voltage_l1 := toInt16 value }
    | 17 => { d with voltage_l2 := toInt16 value, is_3phase := true }
    | 18 => { d with voltage_l3 := toInt16 value, is_3phase := true }
    | 19 => { d with current_l1 := toInt16 value }
    | 20 => { d with current_l2 := toInt16 value, is_3phase := true }
    | 21 => { d with current_l3 := toInt16 value, is_3phase := true }
    | 22 => { d with pf_total := toInt32 value }
    | 23 => { d with pf_l1 := toInt32 value }
    | 24 => { d with pf_l2 := toInt32 value }
    | 25 => { d with pf_l3 := toInt32 value }
    | _ => d

/-- `process_line` of revision 6.2.0.  The incoming buffer is read
through C string functions, so everything past a NUL byte is invisible
(`takeWhile`).  Branches: empty/CR line ignored; identification line
(leading `/` or uppercase letter, no `:`) copied into the equipment id;
`!` terminator line closes the frame and, when at least four characters
follow the `!`, validates the transmitted CRC via `strtol` base 16,
otherwise accepts unconditionally; any other line is resolved against
the OBIS table and, on success, its extracted value is stored. -/
def process_line (p : dsmr_parser_t) (rawLine : List Nat) : dsmr_parser_t :=
  let line := rawLine.takeWhile (fun b => b ≠ 0)
  if line.headD 0 = 0 ∨ line.headD 0 = 13 then p
  else if (line.headD 0 = 47 ∨ (65 ≤ line.headD 0 ∧ line.headD 0 ≤ 90)) ∧
      ¬ line.contains 58 then
    { p with data := { p.data with equipment_id := line.take 32 } }
  else if line.headD 0 = 33 then
    let p := { p with frame_active := false }
    if 5 ≤ line.length then
      let hex := (line.drop 1).take 4
      let received : Nat := ((strtol16 hex) % (2 ^ 16 : Int)).toNat
      if received = p.crc_calculated then
        { p with data := { p.data with frame_complete := true } }
      else p
    else { p with data := { p.data with frame_complete := true } }
  else
    match List.findIdx? (fun b => b == 40) line with
    | none => p
    | some i =>
      let obis := match_obis_code (line.take i)
      if obis = 0 then p
      else
        match extract_value line with
        | none => p
        | some v => { p with data := store_value p.data obis v }

/-- `dsmr_parse_byte`: the byte-at-a-time state machine.  Returns the C
return code (1 = frame ready) together with the updated state.  While
idle, only `/`, an uppercase letter or a digit opens a frame (seeding
the CRC with that byte).  While in a frame the byte is hashed until the
`!` terminator closes CRC accumulation; `\n` dispatches the buffered
line, `\r` is skipped, and other bytes append to the line buffer while
fewer than 79 bytes are stored. -/
def dsmr_parse_byte (p : dsmr_parser_t) (c : Nat) : Nat × dsmr_parser_t :=
  if !p.frame_active then
    if c = 47 ∨ (65 ≤ c ∧ c ≤ 90) ∨ (48 ≤ c ∧ c ≤ 57) then
      (0, { p with
            frame_active := true,
            crc_done := false,
            crc_calculated := crc16_update 0 c,
            line_buffer := [c] })
    else (0, p)
  else
    let p :=
      if !p.crc_done then
        { p with
          crc_calculated := crc16_update p.crc_calculated c,
          crc_done := c = 33 }
      else p
    if c = 10 then
      let p2 := process_line p p.line_buffer
      let p2 := { p2 with line_buffer := [] }
      (if p2.data.frame_complete then 1 else 0, p2)
    else if c = 13 then (0, p)
    else if p.line_buffer.length < 79 then
      (0, { p with line_buffer := p.line_buffer ++ [c] })
    else (0, p)

/-- Feed a byte list to the parser, collecting the per-byte return codes
and the final state. -/
def dsmr_feed (p : dsmr_parser_t) : List Nat → List Nat × dsmr_parser_t
  | [] => ([], p)
  | c :: rest =>
    let r := dsmr_parse_byte p c
    let rs := dsmr_feed r.2 rest
    (r.1 :: rs.1, rs.2)

example : crc16_update 0 47 = 0xDC41 := by decide
example : ascii_to_fixed [48, 48, 46, 52, 50, 52] 6 = 424000 := by decide
example : ascii_to_fixed [50, 50, 57, 46, 53] 2 = 22950 := by decide
example : strtol16 [51, 56, 51, 68] = 0x383D := by decide
example : strtol16 [90, 90, 90, 90] = 0 := by decide
example : Int.tdiv (-7) 2 = -3 := by decide

end SMR

namespace SMR

/-- The section-8 sample telegram of the specification, with its correct
CRC16 (0x383D) as the four trailing hex characters:
line 1 `/ISk5\2MT382-1000`, line 2 `1-0:1.7.0(00.424*kW)`,
line 3 `1-0:2.7.0(00.000*kW)`, line 4 `!383D`, CRLF line ends. -/
def sampleTelegram : List Nat :=
  [47, 73, 83, 107, 53, 92, 50, 77, 84, 51, 56, 50, 45, 49, 48, 48, 48,
   13, 10,
   49, 45, 48, 58, 49, 46, 55, 46, 48, 40, 48, 48, 46, 52, 50, 52, 42,
   107, 87, 41, 13, 10,
   49, 45, 48, 58, 50, 46, 55, 46, 48, 40, 48, 48, 46, 48, 48, 48, 42,
   107, 87, 41, 13, 10,
   33, 51, 56, 51, 68, 13, 10]

/-- Identity on `x` that forces the numeric argument when the result is
demanded.  Used only to build evaluation-friendly equivalents of the
byte-stream runners; `forceNat_eq` shows it changes nothing. -/
def forceNat (n : Nat) (x : α) : α := if n = 0 then x else x

theorem forceNat_eq (n : Nat) (x : α) : forceNat n x = x := by
  unfold forceNat; split <;> rfl

/-- Fuel-indexed variant of `crc16_list` that forces the accumulator at
every step, keeping kernel evaluation depth bounded. -/
def crc16_run (fuel a : Nat) (bs : List Nat) : Nat :=
  match fuel, bs with
  | _, [] => a
  | 0, _ => a
  | fuel + 1, b :: bs =>
    crc16_run fuel (crc16_update a b) (forceNat (crc16_update a b) bs)

theorem crc16_run_eq_aux (fuel : Nat) : ∀ (bs : List Nat) (a : Nat),
    bs.length ≤ fuel → crc16_run fuel a bs = crc16_list a bs := by
  induction fuel with
  | zero =>
    intro bs a h
    have hnil : bs = [] := List.length_eq_zero.mp (Nat.le_zero.mp h)
    subst hnil; rfl
  | succ fuel ih =>
    intro bs a h
    cases bs with
    | nil => rfl
    | cons b bs =>
      show crc16_run fuel (crc16_update a b) (forceNat (crc16_update a b) bs)
          = crc16_list (crc16_update a b) bs
      rw [forceNat_eq, ih bs _ (Nat.le_of_succ_le_succ h)]

theorem crc16_list_eq_run (a : Nat) (bs : List Nat) :
    crc16_list a bs = crc16_run bs.length a bs :=
  (crc16_run_eq_aux bs.length bs a (Nat.le_refl _)).symm

/-- Fuel-indexed variant of `dsmr_feed` that forces the CRC accumulator
and the line-buffer spine at every step, keeping kernel evaluation depth
bounded.  `dsmr_feed_eq_run` shows it computes exactly `dsmr_feed`. -/
def dsmr_run (fuel : Nat) (p : dsmr_parser_t) (bs : List Nat) :
    List Nat × dsmr_parser_t :=
  match fuel, bs with
  | _, [] => ([], p)
  | 0, _ => ([], p)
  | fuel + 1, c :: rest =>
    let r := dsmr_parse_byte p c
    let rs := dsmr_run fuel r.2
      (forceNat (r.2.crc_calculated + r.2.line_buffer.length) rest)
    (r.1 :: rs.1, rs.2)

theorem dsmr_run_eq_aux (fuel : Nat) : ∀ (bs : List Nat) (p : dsmr_parser_t),
    bs.length ≤ fuel → dsmr_run fuel p bs = dsmr_feed p bs := by
  induction fuel with
  | zero =>
    intro bs p h
    have hnil : bs = [] := List.length_eq_zero.mp (Nat.le_zero.mp h)
    subst hnil; rfl
  | succ fuel ih =>
    intro bs p h
    cases bs with
    | nil => rfl
    | cons c rest =>
      show (let r := dsmr_parse_byte p c
            let rs := dsmr_run fuel r.2
              (forceNat (r.2.crc_calculated + r.2.line_buffer.length) rest)
            (r.1 :: rs.1, rs.2))
          = dsmr_feed p (c :: rest)
      simp only [forceNat_eq]
      rw [ih rest _ (Nat.le_of_succ_le_succ h)]
      rfl

theorem dsmr_feed_eq_run (p : dsmr_parser_t) (bs : List Nat) :
    dsmr_feed p bs = dsmr_run bs.length p bs :=
  (dsmr_run_eq_aux bs.length bs p (Nat.le_refl _)).symm

/-- Frame-complete flag after feeding a whole byte stream to a freshly
initialized parser. -/
def frame_complete_after (bs : List Nat) : Bool :=
  (dsmr_feed dsmr_parser_init bs).2.data.frame_complete

theorem frame_complete_after_run (bs : List Nat) :
    frame_complete_after bs
      = (dsmr_run bs.length dsmr_parser_init bs).2.data.frame_complete := by
  unfold frame_complete_after
  rw [dsmr_feed_eq_run]

/-- Flip bit `b` of the byte at position `i` of a byte stream. -/
def flipBit (bs : List Nat) (i b : Nat) : List Nat :=
  bs.set i ((bs.getD i 0) ^^^ 2 ^ b)

/-- Uppercase ASCII code of a hexadecimal digit value. -/
def hexDigitU (n : Nat) : Nat := if n < 10 then 48 + n else 55 + n

/-- The four uppercase hex characters of a 16-bit CRC value, as they
appear after `!` in a telegram's terminator line. -/
def crcHex4 (c : Nat) : List Nat :=
  [hexDigitU (c / 4096 % 16), hexDigitU (c / 256 % 16),
   hexDigitU (c / 16 % 16), hexDigitU (c % 16)]

/-- Firmware-level state around the parser: the parser (with its working
record) and the consumer-visible `dsmr_last_good` record. -/
structure SysState where
  parser : dsmr_parser_t := {}
  last_good : dsmr_data_t := {}
deriving DecidableEq

/-- The freshly booted system state (both records zeroed). -/
def init_sys : SysState := {}

/-- The parser-facing part of `processDataByte`: feed the byte; when the
parser reports a complete frame, copy the working record to
`dsmr_last_good` only if its meter id is nonempty and the frame-complete
flag is set, then reinitialize parser and working record.  (TCP fan-out
and the raw diagnostic buffer do not touch these fields and are not
modelled.) -/
def processDataByte (s : SysState) (c : Nat) : SysState :=
  let r := dsmr_parse_byte s.parser c
  if r.1 = 1 then
    { parser := dsmr_parser_init,
      last_good :=
        if r.2.data.meter_id.headD 0 ≠ 0 ∧ r.2.data.frame_complete then
          r.2.data
        else s.last_good }
  else { s with parser := r.2 }

/-- Feed a byte list through `processDataByte`. -/
def sys_feed (s : SysState) : List Nat → SysState
  | [] => s
  | c :: rest => sys_feed (processDataByte s c) rest

/-- Fuel-indexed variant of `sys_feed` with per-step forcing, keeping
kernel evaluation depth bounded. -/
def sys_run (fuel : Nat) (s : SysState) (bs : List Nat) : SysState :=
  match fuel, bs with
  | _, [] => s
  | 0, _ => s
  | fuel + 1, c :: rest =>
    let s2 := processDataByte s c
    sys_run fuel s2
      (forceNat (s2.parser.crc_calculated + s2.parser.line_buffer.length) rest)

theorem sys_run_eq_aux (fuel : Nat) : ∀ (bs : List Nat) (s : SysState),
    bs.length ≤ fuel → sys_run fuel s bs = sys_feed s bs := by
  induction fuel with
  | zero =>
    intro bs s h
    have hnil : bs = [] := List.length_eq_zero.mp (Nat.le_zero.mp h)
    subst hnil; rfl
  | succ fuel ih =>
    intro bs s h
    cases bs with
    | nil => rfl
    | cons c rest =>
      show (let s2 := processDataByte s c
            sys_run fuel s2
              (forceNat (s2.parser.crc_calculated + s2.parser.line_buffer.length)
                rest))
          = sys_feed s (c :: rest)
      simp only [forceNat_eq]
      rw [ih rest _ (Nat.le_of_succ_le_succ h)]
      rfl

theorem sys_feed_eq_run (s : SysState) (bs : List Nat) :
    sys_feed s bs = sys_run bs.length s bs :=
  (sys_run_eq_aux bs.length bs s (Nat.le_refl _)).symm

example : crc16_list 0 (sampleTelegram.take 64) = 0x383D := by
  rw [crc16_list_eq_run]; decide

/-- A CRC-valid telegram crafted so that one single-bit corruption of its
body is still accepted: `/A)""\xf0o` CR LF `!81C1` CR LF.  Its CRC over
the bytes from `/` through `!` is 0x81C1, which the trailing hex
characters carry.  Flipping bit 3 of the body byte `)` (0x29) yields `!`
(0x21), and the corrupted stream still validates (the early `!` freezes
the CRC at 0x81C1 as well). -/
def craftedTelegram : List Nat :=
  [47, 65, 41, 34, 34, 240, 111, 13, 10, 33, 56, 49, 67, 49, 13, 10]

/-- C1.  The specification's end-to-end scenario fails only on the
equipment id: the code copies the whole identification line into
`equipment_id`, including the leading `/`, so the stored text is
`/ISk5\2MT382-1000` and not `ISk5\2MT382-1000`.  Everything else in the
claim (frame ready exactly once, on the final newline, 424000 / 0 power
readings) does hold, so the conjunction claimed for this concrete byte
sequence is false. -/
theorem C1_counterexample :
    ¬ ((dsmr_feed dsmr_parser_init sampleTelegram).1
          = List.replicate 69 0 ++ [1]
        ∧ (dsmr_feed dsmr_parser_init sampleTelegram).2.data.current_power
          = 424000
        ∧ (dsmr_feed dsmr_parser_init sampleTelegram).2.data.current_return
          = 0
        ∧ (dsmr_feed dsmr_parser_init sampleTelegram).2.data.equipment_id
          = bytesOf "ISk5\\2MT382-1000") := by
  simp only [dsmr_feed_eq_run]
  decide

/-- C1 (amended).  Feeding the sample telegram (with its correct CRC16
0x383D) to a freshly initialized parser makes `dsmr_parse_byte` return 1
exactly once, on the final newline byte and on no earlier byte, with
`current_power` = 424000, `current_return` = 0, and `equipment_id` equal
to the full identification line `/ISk5\2MT382-1000` (the leading `/`
included). -/
theorem C1_theorem :
    (dsmr_feed dsmr_parser_init sampleTelegram).1
        = List.replicate 69 0 ++ [1]
      ∧ (dsmr_feed dsmr_parser_init sampleTelegram).2.data.current_power
        = 424000
      ∧ (dsmr_feed dsmr_parser_init sampleTelegram).2.data.current_return
        = 0
      ∧ (dsmr_feed dsmr_parser_init sampleTelegram).2.data.equipment_id
        = bytesOf "/ISk5\\2MT382-1000" := by
  simp only [dsmr_feed_eq_run]
  decide

/-- C2.  The universally quantified bit-flip claim is false: there is a
complete telegram (trailing four hex characters = CRC16 of the bytes
from `/` through `!`, frame-complete on feeding) and a single-bit flip
of one body byte (position 2, bit 3, turning `)` into `!`) whose
corrupted stream still yields frame-complete = true. -/
theorem C2_counterexample :
    crc16_list 0 (craftedTelegram.take 10) = 0x81C1
      ∧ craftedTelegram.drop 10 = crcHex4 0x81C1 ++ [13, 10]
      ∧ frame_complete_after craftedTelegram = true
      ∧ flipBit craftedTelegram 2 3
          = [47, 65, 33, 34, 34, 240, 111, 13, 10, 33, 56, 49, 67, 49, 13, 10]
      ∧ frame_complete_after (flipBit craftedTelegram 2 3) = true := by
  simp only [frame_complete_after_run, crc16_list_eq_run]
  decide

theorem sample_flips_rejected_bit0 :
    ((List.range 64).all fun i =>
      !(frame_complete_after (flipBit sampleTelegram i 0))) = true := by
  simp only [frame_complete_after_run]
  decide

theorem sample_flips_rejected_bit1 :
    ((List.range 64).all fun i =>
      !(frame_complete_after (flipBit sampleTelegram i 1))) = true := by
  simp only [frame_complete_after_run]
  decide

theorem sample_flips_rejected_bit2 :
    ((List.range 64).all fun i =>
      !(frame_complete_after (flipBit sampleTelegram i 2))) = true := by
  simp only [frame_complete_after_run]
  decide

theorem sample_flips_rejected_bit3 :
    ((List.range 64).all fun i =>
      !(frame_complete_after (flipBit sampleTelegram i 3))) = true := by
  simp only [frame_complete_after_run]
  decide

theorem sample_flips_rejected_bit4 :
    ((List.range 64).all fun i =>
      !(frame_complete_after (flipBit sampleTelegram i 4))) = true := by
  simp only [frame_complete_after_run]
  decide

theorem sample_flips_rejected_bit5 :
    ((List.range 64).all fun i =>
      !(frame_complete_after (flipBit sampleTelegram i 5))) = true := by
  simp only [frame_complete_after_run]
  decide

theorem sample_flips_rejected_bit6 :
    ((List.range 64).all fun i =>
      !(frame_complete_after (flipBit sampleTelegram i 6))) = true := by
  simp only [frame_complete_after_run]
  decide

theorem sample_flips_rejected_bit7 :
    ((List.range 64).all fun i =>
      !(frame_complete_after (flipBit sampleTelegram i 7))) = true := by
  simp only [frame_complete_after_run]
  decide

/-- C2 (amended).  For the specification's known sample telegram with
its correct CRC (0x383D): feeding every byte yields frame-complete =
true, and for every single-bit flip of any of the 64 body bytes (the
bytes from `/` through `!`, before the trailing checksum characters) the
corrupted stream yields frame-complete = false.  The property does not
extend to arbitrary telegrams (see the counterexample). -/
theorem C2_theorem :
    frame_complete_after sampleTelegram = true
      ∧ ((List.range 8).all fun b => (List.range 64).all fun i =>
          !(frame_complete_after (flipBit sampleTelegram i b))) = true := by
  constructor
  · rw [frame_complete_after_run]
    decide
  · have hr : List.range 8 = [0, 1, 2, 3, 4, 5, 6, 7] := rfl
    rw [hr]
    simp only [List.all_cons, List.all_nil]
    rw [sample_flips_rejected_bit0, sample_flips_rejected_bit1,
      sample_flips_rejected_bit2, sample_flips_rejected_bit3,
      sample_flips_rejected_bit4, sample_flips_rejected_bit5,
      sample_flips_rejected_bit6, sample_flips_rejected_bit7]
    rfl

/-- C4.  There is no mid-frame resync on `/`: after feeding `/`, `A`,
`/`, the claim would require the line buffer to have been reset to the
single re-seeding byte `/` and the CRC accumulator to be re-seeded to
`crc16_update 0 '/'`, but the parser has simply appended the `/` as an
ordinary byte (buffer `/A/`, CRC over all three bytes). -/
theorem C4_counterexample :
    ¬ ((dsmr_feed dsmr_parser_init [47, 65, 47]).2.line_buffer = [47]
        ∧ (dsmr_feed dsmr_parser_init [47, 65, 47]).2.crc_calculated
          = crc16_update 0 47) := by
  simp only [dsmr_feed_eq_run]
  decide

end SMR

namespace SMR

theorem takeWhile_ne_zero_of_not_mem (t : List Nat) (h0 : 0 ∉ t) :
    t.takeWhile (fun b => b ≠ 0) = t := by
  rw [List.takeWhile_eq_self_iff]
  intro x hx
  simp only [ne_eq, decide_eq_true_eq]
  intro hx0
  exact h0 (hx0 ▸ hx)

/-- C3.  The terminator-line decision is by character count, not by hex
content.  On a `!` line followed by at least four characters the code
always runs the `strtol`-and-compare path, so a line whose trailing
characters contain no hex digit at all is not accepted unconditionally:
`strtol` yields 0, the comparison fails, and the frame is discarded. -/
theorem C3_counterexample :
    ((bytesOf "ZZZZ").all fun c => !(isHexByte c)) = true
      ∧ frame_complete_after (bytesOf "/A\r\n!ZZZZ\r\n") = false := by
  simp only [frame_complete_after_run]
  decide

/-- C3 (amended).  When a completed line starts with `!`: if at least
four characters follow the `!`, the first four of them are handed to
`strtol` base 16 (a non-hex prefix decodes to 0) and the 16-bit cast of
the result is compared with the accumulated CRC — on equality the
frame-complete flag is set, on inequality the record is left unchanged;
if fewer than four characters follow, the frame is accepted
unconditionally.  In both cases the frame-active flag is cleared. -/
theorem C3_theorem (p : dsmr_parser_t) (t : List Nat) (h0 : 0 ∉ t) :
    (process_line p (33 :: t)).frame_active = false
      ∧ (process_line p (33 :: t)).data
        = (if 4 ≤ t.length then
             (if ((strtol16 (t.take 4)) % (2 ^ 16 : Int)).toNat
                  = p.crc_calculated
              then { p.data with frame_complete := true } else p.data)
           else { p.data with frame_complete := true }) := by
  have ht : (33 :: t).takeWhile (fun b => b ≠ 0) = 33 :: t := by
    rw [List.takeWhile_cons_of_pos (by decide)]
    rw [takeWhile_ne_zero_of_not_mem t h0]
  unfold process_line
  simp only [ht, List.headD_cons, List.length_cons, List.drop_succ_cons,
    List.drop_zero]
  norm_num
  have hiff : (5 ≤ t.length + 1) ↔ (4 ≤ t.length) := by omega
  simp only [hiff]
  constructor
  · split
    · split <;> rfl
    · rfl
  · split
    · split <;> rfl
    · rfl

/-- C3 witness: a concrete instantiation of the amended theorem at a
matching CRC (line `!1A2B`, accumulated CRC 0x1A2B). -/
theorem C3_witness :
    (process_line { crc_calculated := 0x1A2B } (33 :: bytesOf "1A2B")).frame_active
        = false
      ∧ (process_line { crc_calculated := 0x1A2B }
            (33 :: bytesOf "1A2B")).data
        = { init_data with frame_complete := true } := by
  have h := C3_theorem { crc_calculated := 0x1A2B } (bytesOf "1A2B") (by decide)
  refine ⟨h.1, ?_⟩
  rw [h.2]
  decide

/-- C10.  A terminator line carrying between zero and three characters
after the `!` is accepted unconditionally: the frame-complete flag is
set without any CRC comparison (the result holds for every parser state,
hence for every value of the accumulated CRC and every content of the
trailing characters), and the frame-active flag is cleared. -/
theorem C10_theorem (p : dsmr_parser_t) (t : List Nat) (h0 : 0 ∉ t)
    (hlen : t.length ≤ 3) :
    (process_line p (33 :: t)).data.frame_complete = true
      ∧ (process_line p (33 :: t)).frame_active = false := by
  have ht : (33 :: t).takeWhile (fun b => b ≠ 0) = 33 :: t := by
    rw [List.takeWhile_cons_of_pos (by decide)]
    rw [takeWhile_ne_zero_of_not_mem t h0]
  unfold process_line
  simp only [ht, List.headD_cons, List.length_cons]
  norm_num
  have h5 : ¬ (5 ≤ t.length + 1) := by omega
  simp [h5]

/-- C10 witness: the line `!xy` (two non-hex characters) is accepted
even though the accumulated CRC 0xDEAD matches nothing. -/
theorem C10_witness :
    (process_line { crc_calculated := 0xDEAD } (33 :: bytesOf "xy")).data.frame_complete
        = true
      ∧ (process_line { crc_calculated := 0xDEAD }
            (33 :: bytesOf "xy")).frame_active = false :=
  C10_theorem { crc_calculated := 0xDEAD } (bytesOf "xy") (by decide) (by decide)

end SMR

namespace SMR

/-- C4 (amended).  A `/` consumed while the parser is mid-frame is not a
resync point: it is treated exactly like any ordinary byte — hashed into
the still-open CRC and appended to the line buffer — and neither the
line buffer nor the CRC accumulator is reset; the frame stays active.
(The parser only returns to the idle state through a terminator line or
an external `dsmr_parser_init`.) -/
theorem C4_theorem (p : dsmr_parser_t) (ha : p.frame_active = true)
    (hc : p.crc_done = false) (hl : p.line_buffer.length < 79) :
    dsmr_parse_byte p 47
      = (0, { p with
              crc_calculated := crc16_update p.crc_calculated 47,
              crc_done := false,
              line_buffer := p.line_buffer ++ [47] }) := by
  unfold dsmr_parse_byte
  simp [ha, hc, hl]

/-- C4 witness: the amended theorem evaluated mid-frame after `/A`, on a
second `/`. -/
theorem C4_witness :
    dsmr_parse_byte
        { line_buffer := [47, 65], frame_active := true, crc_calculated := 0x1234 }
        47
      = (0, { line_buffer := [47, 65, 47], frame_active := true, crc_calculated := crc16_update 0x1234 47, crc_done := false }) := by
  have h := C4_theorem
    { line_buffer := [47, 65], frame_active := true, crc_calculated := 0x1234 }
    rfl rfl (by decide)
  simpa using h

/-- A structurally valid telegram (with meter-id line) whose four
trailing checksum characters `6534` differ from the true CRC 0x6533 of
its body. -/
def badCrcTelegram : List Nat :=
  bytesOf "/EQ1\r\n0-0:96.1.1(4530303034)\r\n1-0:1.7.0(00.100*kW)\r\n!6534\r\n"

theorem store_value_equipment (d : dsmr_data_t) (obis : Nat) (v : List Nat) :
    (store_value d obis v).equipment_id = d.equipment_id := by
  unfold store_value
  repeat' split
  all_goals rfl

/-- C5.  The consumer-visible record is replaced only at the instant the
parser reports a completed frame whose frame-complete flag is set (and
whose meter id is nonempty): for every state and byte, either
`dsmr_last_good` is untouched, or the parser returned 1 and the record
copied is the fully processed working record with `frame_complete` set.
Concretely, feeding a whole telegram whose checksum comparison fails
leaves `dsmr_last_good` bit-for-bit at its initial value even though the
working record was partially populated (its meter id was stored). -/
theorem C5_theorem :
    (∀ (s : SysState) (c : Nat),
        (processDataByte s c).last_good = s.last_good
          ∨ ((dsmr_parse_byte s.parser c).1 = 1
              ∧ (dsmr_parse_byte s.parser c).2.data.frame_complete = true
              ∧ (processDataByte s c).last_good
                  = (dsmr_parse_byte s.parser c).2.data))
      ∧ ((sys_feed init_sys badCrcTelegram).last_good = init_data
          ∧ (sys_feed init_sys badCrcTelegram).parser.data.meter_id
              = bytesOf "4530303034") := by
  constructor
  · intro s c
    unfold processDataByte
    dsimp only
    split
    · rename_i h1
      split
      · rename_i h2
        right
        exact ⟨h1, h2.2, rfl⟩
      · left; rfl
    · left; rfl
  · constructor
    · rw [sys_feed_eq_run]; decide
    · rw [sys_feed_eq_run]; decide

/-- C9.  A validated frame with an empty meter id is never published:
whenever the parser returns 1 but the processed working record's meter
id begins with the NUL byte, `dsmr_last_good` is left unchanged while
parser and working record are still reinitialized for the next
telegram. -/
theorem C9_theorem (s : SysState) (c : Nat)
    (h1 : (dsmr_parse_byte s.parser c).1 = 1)
    (h2 : (dsmr_parse_byte s.parser c).2.data.meter_id.headD 0 = 0) :
    (processDataByte s c).last_good = s.last_good
      ∧ (processDataByte s c).parser = dsmr_parser_init := by
  unfold processDataByte
  dsimp only
  split
  · constructor
    · split
      · rename_i hcond
        exact absurd h2 hcond.1
      · rfl
    · rfl
  · rename_i hne
    exact absurd h1 hne

/-- System state one byte before completing a CRC-valid telegram that
contains no meter-id line. -/
def sys_nometer : SysState :=
  { parser := { line_buffer := [33, 56, 67, 70, 69], frame_active := true,
                crc_calculated := 0x8CFE, crc_done := true,
                data := { equipment_id := bytesOf "/EQ1",
                          current_power := 100000 } },
    last_good := init_data }

/-- C9 witness: the final newline of a valid meter-id-free telegram
triggers return code 1, yet `dsmr_last_good` stays put and the parser is
reinitialized. -/
theorem C9_witness :
    (processDataByte sys_nometer 10).last_good = sys_nometer.last_good
      ∧ (processDataByte sys_nometer 10).parser = dsmr_parser_init :=
  C9_theorem sys_nometer 10 (by decide) (by decide)

/-- C8.  In revision 6.2.0 the meter-id field is a 33-byte array, so
`strncpy` truncates at 32 characters, not 16: a 17-character value is
stored whole, contradicting the claimed 16-character bound. -/
theorem C8_counterexample :
    (store_value init_data 1 (bytesOf "ABCDEFGHIJKLMNOPQ")).meter_id
        = bytesOf "ABCDEFGHIJKLMNOPQ"
      ∧ ¬ ((store_value init_data 1
            (bytesOf "ABCDEFGHIJKLMNOPQ")).meter_id.length ≤ 16) := by
  decide

/-- C8 (amended).  Stored text is always the input truncated to the
field capacity and never exceeds it: meter id truncates at 32
characters, timestamp at 13, and every stored equipment identifier is
the (NUL-cut) line truncated at 32 characters — so no write ever exceeds
the destination array. -/
theorem C8_theorem :
    (∀ (d : dsmr_data_t) (v : List Nat),
        (store_value d 1 v).meter_id = v.take 32
          ∧ (store_value d 1 v).meter_id.length ≤ 32
          ∧ (store_value d 2 v).timestamp = v.take 13
          ∧ (store_value d 2 v).timestamp.length ≤ 13)
      ∧ (∀ (p : dsmr_parser_t) (l : List Nat),
          (process_line p l).data.equipment_id = p.data.equipment_id
            ∨ ((process_line p l).data.equipment_id
                  = (l.takeWhile (fun b => b ≠ 0)).take 32
                ∧ (process_line p l).data.equipment_id.length ≤ 32)) := by
  constructor
  · intro d v
    refine ⟨rfl, ?_, rfl, ?_⟩
    · show (v.take 32).length ≤ 32
      rw [List.length_take]
      exact Nat.min_le_left _ _
    · show (v.take 13).length ≤ 13
      rw [List.length_take]
      exact Nat.min_le_left _ _
  · intro p l
    unfold process_line
    dsimp only
    split
    · left; rfl
    · split
      · right
        refine ⟨rfl, ?_⟩
        show ((l.takeWhile fun b => b ≠ 0).take 32).length ≤ 32
        rw [List.length_take]
        exact Nat.min_le_left _ _
      · split
        · split
          · split
            · left; rfl
            · left; rfl
          · left; rfl
        · split
          · left; rfl
          · split
            · left; rfl
            · split
              · left; rfl
              · left; exact store_value_equipment _ _ _

end SMR

namespace SMR

theorem wrap64_zero : wrap64 0 = 0 := by decide

theorem wrap64_eq_self (x : Int) (h0 : 0 ≤ x) (h1 : x < 2 ^ 63) :
    wrap64 x = x := by
  have hb : (2 : Int) ^ 63 + 2 ^ 63 = 2 ^ 64 := by norm_num
  unfold wrap64
  rw [Int.emod_eq_of_lt (by linarith) (by linarith)]
  ring

theorem padTimes10_zero : ∀ k, padTimes10 0 k = 0
  | 0 => rfl
  | k + 1 => by
    show padTimes10 (wrap64 (0 * 10)) k = 0
    rw [zero_mul, wrap64_zero, padTimes10_zero k]

theorem a2f_loop_no_digit : ∀ (s : List Nat),
    (∀ c ∈ s, isDigitByte c = false) →
    ∀ (r f : Int) (b : Bool) (k : Nat),
      ∃ b2, a2f_loop s (r, f, b, k) = (r, f, b2, k) := by
  intro s
  induction s with
  | nil => exact fun _ r f b k => ⟨b, rfl⟩
  | cons c s ih =>
    intro hs r f b k
    have hc : isDigitByte c = false := hs c (List.mem_cons_self c s)
    have hs2 : ∀ x ∈ s, isDigitByte x = false :=
      fun x hx => hs x (List.mem_cons_of_mem c hx)
    by_cases h0 : c = 0
    · exact ⟨b, by simp [a2f_loop, h0]⟩
    · by_cases h46 : c = 46
      · obtain ⟨b2, hb⟩ := ih hs2 r f true k
        exact ⟨b2, by simp [a2f_loop, h0, h46, hb]⟩
      · obtain ⟨b2, hb⟩ := ih hs2 r f b k
        exact ⟨b2, by simp [a2f_loop, h0, h46, hc, hb]⟩

/-- C6.  `ascii_to_fixed` is total by construction (it is a structurally
recursive scan); on any C string containing no decimal digit it returns
zero at every scale, and the scan loop skips every character that is not
a digit and not `.` (including interior `-` signs), continuing with the
rest of the string. -/
theorem C6_theorem :
    (∀ (s : List Nat) (scale : Nat),
        (∀ c ∈ s, isDigitByte c = false) → ascii_to_fixed s scale = 0)
      ∧ (∀ (c : Nat) (rest : List Nat) (st : A2FState),
          c ≠ 0 → isDigitByte c = false → c ≠ 46 →
          a2f_loop (c :: rest) st = a2f_loop rest st) := by
  constructor
  · intro s scale hs
    unfold ascii_to_fixed
    dsimp only
    by_cases hh : s.headD 0 = 45
    · obtain ⟨b2, hb⟩ := a2f_loop_no_digit s.tail
        (fun c hc => hs c (List.mem_of_mem_tail hc)) 0 0 false 0
      rw [if_pos hh, if_pos hh, hb]
      dsimp only
      simp [padTimes10_zero, wrap64_zero, Int.zero_tdiv]
    · obtain ⟨b2, hb⟩ := a2f_loop_no_digit s hs 0 0 false 0
      rw [if_neg hh, if_neg hh, hb]
      dsimp only
      simp [padTimes10_zero, wrap64_zero, Int.zero_tdiv]
  · intro c rest st h0 hd h46
    obtain ⟨r, f, b, k⟩ := st
    simp [a2f_loop, h0, h46, hd]

/-- C6 witness: the digitless string `abc` decodes to zero, and the scan
loop steps over the non-digit byte `x` (120) unchanged. -/
theorem C6_witness :
    ascii_to_fixed (bytesOf "abc") 6 = 0
      ∧ a2f_loop (120 :: [49, 50]) (0, 0, false, 0)
          = a2f_loop [49, 50] (0, 0, false, 0) :=
  ⟨C6_theorem.1 (bytesOf "abc") 6 (by decide),
   C6_theorem.2 120 [49, 50] (0, 0, false, 0) (by decide) (by decide)
     (by decide)⟩

/-- Decimal value accumulated from digit bytes starting at `a`, the
`result = result * 10 + (*str - '0')` recurrence of `ascii_to_fixed`. -/
def accVal (a : Nat) (l : List Nat) : Nat :=
  l.foldl (fun x c => x * 10 + (c - 48)) a

/-- Decimal value of a digit-byte string. -/
def digitsVal (l : List Nat) : Nat := accVal 0 l

theorem accVal_le : ∀ (l : List Nat) (a : Nat), a ≤ accVal a l
  | [], a => Nat.le_refl a
  | c :: l, a => by
    have h1 : a ≤ a * 10 + (c - 48) := by omega
    exact Nat.le_trans h1 (accVal_le l (a * 10 + (c - 48)))

theorem a2f_loop_digits_int : ∀ (ds : List Nat),
    (∀ c ∈ ds, isDigitByte c = true) →
    ∀ (r : Nat) (f : Int) (k : Nat), accVal r ds < 2 ^ 63 →
      a2f_loop ds ((r : Int), f, false, k)
        = ((accVal r ds : Int), f, false, k) := by
  intro ds
  induction ds with
  | nil => exact fun _ r f k _ => rfl
  | cons c ds ih =>
    intro hd r f k hb
    have hc : isDigitByte c = true := hd c (List.mem_cons_self c ds)
    have h48 : 48 ≤ c ∧ c ≤ 57 := by simpa [isDigitByte] using hc
    have h0 : ¬ (c = 0) := by omega
    have h46 : ¬ (c = 46) := by omega
    have hd2 : ∀ x ∈ ds, isDigitByte x = true :=
      fun x hx => hd x (List.mem_cons_of_mem c hx)
    have hstep : accVal r (c :: ds) = accVal (r * 10 + (c - 48)) ds := rfl
    have hlt : r * 10 + (c - 48) < 2 ^ 63 :=
      Nat.lt_of_le_of_lt (hstep ▸ accVal_le ds (r * 10 + (c - 48))) hb
    have hcast : ((r * 10 + (c - 48) : Nat) : Int)
        = (r : Int) * 10 + ((c : Int) - 48) := by
      push_cast [h48.1]
      ring
    have hw : wrap64 ((r : Int) * 10 + ((c : Int) - 48))
        = ((r * 10 + (c - 48) : Nat) : Int) := by
      rw [← hcast]
      exact wrap64_eq_self _ (Int.natCast_nonneg _) (by exact_mod_cast hlt)
    show a2f_loop (c :: ds) (↑r, f, false, k) = _
    rw [hstep]
    simp only [a2f_loop, h0, h46, hc, if_false, if_true, Bool.not_false,
      ite_true, ite_false]
    rw [hw]
    exact ih hd2 (r * 10 + (c - 48)) f k (hstep ▸ hb)

theorem a2f_loop_digits_frac : ∀ (fs : List Nat),
    (∀ c ∈ fs, isDigitByte c = true) →
    ∀ (r : Int) (f : Nat) (k : Nat), k + fs.length ≤ 6 → f < 10 ^ k →
      a2f_loop fs (r, (f : Int), true, k)
        = (r, (accVal f fs : Int), true, k + fs.length) := by
  intro fs
  induction fs with
  | nil => exact fun _ r f k _ _ => rfl
  | cons c fs ih =>
    intro hd r f k hk hf
    have hc : isDigitByte c = true := hd c (List.mem_cons_self c fs)
    have h48 : 48 ≤ c ∧ c ≤ 57 := by simpa [isDigitByte] using hc
    have h0 : ¬ (c = 0) := by omega
    have h46 : ¬ (c = 46) := by omega
    have hd2 : ∀ x ∈ fs, isDigitByte x = true :=
      fun x hx => hd x (List.mem_cons_of_mem c hx)
    have hklt : k < 6 := by
      have := fs.length
      simp only [List.length_cons] at hk
      omega
    have hfs : f * 10 + (c - 48) < 10 ^ (k + 1) := by
      rw [pow_succ]
      omega
    have hsmall : f * 10 + (c - 48) < 2 ^ 63 := by
      have h6 : (10 : Nat) ^ (k + 1) ≤ 10 ^ 6 :=
        Nat.pow_le_pow_right (by norm_num) (by omega)
      have : (10 : Nat) ^ 6 < 2 ^ 63 := by norm_num
      omega
    have hcast : ((f * 10 + (c - 48) : Nat) : Int)
        = (f : Int) * 10 + ((c : Int) - 48) := by
      push_cast [h48.1]
      ring
    have hw : wrap64 ((f : Int) * 10 + ((c : Int) - 48))
        = ((f * 10 + (c - 48) : Nat) : Int) := by
      rw [← hcast]
      exact wrap64_eq_self _ (Int.natCast_nonneg _) (by exact_mod_cast hsmall)
    have hstep : accVal f (c :: fs) = accVal (f * 10 + (c - 48)) fs := rfl
    show a2f_loop (c :: fs) (r, ↑f, true, k) = _
    rw [hstep]
    simp only [a2f_loop, h0, h46, hc, if_false, if_true, Bool.not_true,
      ite_true, ite_false, hklt]
    rw [hw]
    have hrec := ih hd2 r (f * 10 + (c - 48)) (k + 1)
      (by simp only [List.length_cons] at hk; omega) hfs
    rw [hrec]
    have harith : k + 1 + fs.length = k + (fs.length + 1) := by omega
    rw [harith]
    simp [List.length_cons]

theorem a2f_loop_append : ∀ (xs ys : List Nat), 0 ∉ xs → ∀ (st : A2FState),
    a2f_loop (xs ++ ys) st = a2f_loop ys (a2f_loop xs st) := by
  intro xs
  induction xs with
  | nil => exact fun ys _ st => rfl
  | cons c xs ih =>
    intro ys h0 st
    obtain ⟨r, f, b, k⟩ := st
    have hc : ¬ (c = 0) := fun h => h0 (h ▸ List.mem_cons_self c xs)
    have h02 : 0 ∉ xs := fun h => h0 (List.mem_cons_of_mem c h)
    by_cases h46 : c = 46
    · simp [a2f_loop, hc, h46, ih ys h02]
    · by_cases hd : isDigitByte c
      · by_cases hb : b
        · by_cases hk : k < 6
          · simp [a2f_loop, hc, h46, hd, hb, hk, ih ys h02]
          · simp [a2f_loop, hc, h46, hd, hb, hk, ih ys h02]
        · simp [a2f_loop, hc, h46, hd, hb, ih ys h02]
      · simp [a2f_loop, hc, h46, hd, ih ys h02]

theorem padTimes10_eq (f : Nat) : ∀ (k : Nat), f * 10 ^ k < 2 ^ 63 →
    padTimes10 (f : Int) k = ((f * 10 ^ k : Nat) : Int)
  | 0, _ => by simp [padTimes10]
  | k + 1, h => by
    have h1 : (10 : Nat) ≤ 10 ^ (k + 1) := by
      calc (10 : Nat) = 10 ^ 1 := (pow_one 10).symm
      _ ≤ 10 ^ (k + 1) := Nat.pow_le_pow_right (by norm_num) (by omega)
    have h10 : f * 10 ≤ f * 10 ^ (k + 1) := Nat.mul_le_mul (Nat.le_refl f) h1
    have hsm : f * 10 < 2 ^ 63 := Nat.lt_of_le_of_lt h10 h
    have hw : wrap64 ((f : Int) * 10) = ((f * 10 : Nat) : Int) := by
      rw [show ((f : Int) * 10) = ((f * 10 : Nat) : Int) by push_cast; ring]
      exact wrap64_eq_self _ (Int.natCast_nonneg _) (by exact_mod_cast hsm)
    simp only [padTimes10]
    rw [hw, padTimes10_eq (f * 10) k (by
      have h2 : f * 10 * 10 ^ k = f * 10 ^ (k + 1) := by ring
      omega)]
    exact Nat.cast_inj.mpr (by ring)

/-- C7.  For digit strings `D.F` with at most six fractional digits and
a value that fits `int64_t` µ-unit arithmetic, `ascii_to_fixed` at scale
6 returns exactly `D * 1000000 + F` zero-padded to six fractional
digits; dividing by 10^6 therefore reproduces the decimal value
exactly (within 1e-6). -/
theorem C7_theorem (ds fs : List Nat)
    (hd : ∀ c ∈ ds, isDigitByte c = true)
    (hf : ∀ c ∈ fs, isDigitByte c = true)
    (hlen : fs.length ≤ 6)
    (hrange : (digitsVal ds : Int) * 1000000
        + (digitsVal fs : Int) * 10 ^ (6 - fs.length) < 2 ^ 63) :
    ascii_to_fixed (ds ++ 46 :: fs) 6
      = (digitsVal ds : Int) * 1000000
        + (digitsVal fs : Int) * 10 ^ (6 - fs.length) := by
  have hDnn : (0 : Int) ≤ (digitsVal ds : Int) := Int.natCast_nonneg _
  have hFnn : (0 : Int) ≤ (digitsVal fs : Int) * 10 ^ (6 - fs.length) := by
    positivity
  have hD63 : (digitsVal ds : Int) < 2 ^ 63 := by
    have h1 : (digitsVal ds : Int) ≤ (digitsVal ds : Int) * 1000000 :=
      le_mul_of_one_le_right hDnn (by norm_num)
    linarith
  have hF63 : (digitsVal fs : Int) * 10 ^ (6 - fs.length) < 2 ^ 63 := by
    have h1 : (0 : Int) ≤ (digitsVal ds : Int) * 1000000 := by positivity
    linarith
  have h45 : ¬ ((ds ++ 46 :: fs).headD 0 = 45) := by
    cases ds with
    | nil => simp
    | cons c ds2 =>
      have h48 : 48 ≤ c ∧ c ≤ 57 := by
        simpa [isDigitByte] using hd c (List.mem_cons_self c ds2)
      simp only [List.cons_append, List.headD_cons]
      omega
  have h0ds : 0 ∉ ds := by
    intro h
    have := hd 0 h
    simp [isDigitByte] at this
  unfold ascii_to_fixed
  dsimp only
  rw [if_neg h45, if_neg h45]
  rw [a2f_loop_append ds (46 :: fs) h0ds]
  have hint := a2f_loop_digits_int ds hd 0 0 0 (by exact_mod_cast hD63)
  rw [Nat.cast_zero] at hint
  rw [hint]
  rw [show accVal 0 ds = digitsVal ds from rfl]
  have hdot : a2f_loop (46 :: fs) ((digitsVal ds : Int), 0, false, 0)
      = a2f_loop fs ((digitsVal ds : Int), 0, true, 0) := by
    simp [a2f_loop]
  rw [hdot]
  have hfrac := a2f_loop_digits_frac fs hf (digitsVal ds : Int) 0 0
    (by omega) (by norm_num)
  rw [Nat.cast_zero] at hfrac
  rw [hfrac]
  dsimp only
  have hFn : (digitsVal fs) * 10 ^ (6 - fs.length) < 2 ^ 63 := by
    exact_mod_cast (by push_cast; linarith : ((digitsVal fs) * 10 ^ (6 - fs.length) : Int) < 2 ^ 63)
  rw [show accVal 0 fs = digitsVal fs from rfl]
  rw [show (0 : Nat) + fs.length = fs.length from Nat.zero_add _]
  rw [padTimes10_eq (digitsVal fs) (6 - fs.length) hFn]
  have hX : (digitsVal ds : Int) * 1000000
      + ((digitsVal fs * 10 ^ (6 - fs.length) : Nat) : Int)
      = (digitsVal ds : Int) * 1000000
        + (digitsVal fs : Int) * 10 ^ (6 - fs.length) := by
    push_cast
    ring
  rw [hX]
  rw [wrap64_eq_self _ (by linarith) hrange]
  norm_num
  rw [wrap64_eq_self _ (by linarith) hrange]

/-- C7 witness: the string `42.3` at scale 6 decodes to 42300000. -/
theorem C7_witness :
    ascii_to_fixed (([52, 50] : List Nat) ++ 46 :: [51]) 6 = 42300000 := by
  have h := C7_theorem [52, 50] [51] (by decide) (by decide) (by decide)
    (by decide)
  simpa using h

end SMR
